import Mathlib

/-!
Shallow embedding of the result-unflattening core of sqlc-typescript
(`unflatten.ts`): `extract_nested_schema` (runtime and code-generation
variants), `unflatten_row`, `merge_objects` and `unflatten_sql_results`,
together with the properties of the specification that concern them.

JavaScript strings are modelled as lists of characters (`Str`), so that
`key.split('.')` becomes `List.splitOn '.'` with the same semantics.
JavaScript runtime values are modelled by the inductive `JsVal`; objects
are insertion-ordered association lists, matching the enumeration order
of `Object.entries` for the string keys this code uses.
-/

abbrev Str := List Char

/-- Characters of a string literal, used to write concrete keys and values. -/
def chars (s : String) : Str := s.toList

/-- The reserved root/array marker key `[]`. -/
def brackets : Str := ['[', ']']

/-- JavaScript runtime values as far as this library manipulates them:
`undefined`, `null`, booleans, numbers (integral in every observable input),
strings, arrays and plain objects. Objects keep fields in insertion order. -/
inductive JsVal where
  | undef : JsVal
  | null : JsVal
  | bool : Bool → JsVal
  | num : Int → JsVal
  | str : Str → JsVal
  | arr : List JsVal → JsVal
  | obj : List (Str × JsVal) → JsVal

/-- A row or object body: ordered association list of fields. -/
abbrev JsObj := List (Str × JsVal)

/-- First binding of a key in an association list. -/
def assocGet {α : Type} (l : List (Str × α)) (k : Str) : Option α :=
  (l.find? (fun p => p.1 == k)).map (fun p => p.2)

/-- JavaScript assignment `o[k] = v`: overwrite the existing binding in
place, or append a new binding at the end. -/
def assocSet {α : Type} : List (Str × α) → Str → α → List (Str × α)
  | [], k, v => [(k, v)]
  | (k', v') :: rest, k, v =>
      if k' == k then (k, v) :: rest else (k', v') :: assocSet rest k v

/-- JavaScript property read `o[k]`: `undefined` when the key is absent. -/
def jsGet (o : JsObj) (k : Str) : JsVal :=
  (assocGet o k).getD JsVal.undef

/-- JavaScript truthiness test restricted to `JsVal`: `undefined`, `null`,
`false`, `0` and the empty string are falsy. -/
def jsFalsy : JsVal → Bool
  | JsVal.undef => true
  | JsVal.null => true
  | JsVal.bool b => !b
  | JsVal.num n => n == 0
  | JsVal.str s => s.isEmpty
  | JsVal.arr _ => false
  | JsVal.obj _ => false

def isArr : JsVal → Bool
  | JsVal.arr _ => true
  | _ => false

def isObj : JsVal → Bool
  | JsVal.obj _ => true
  | _ => false

def isNum : JsVal → Bool
  | JsVal.num _ => true
  | _ => false

/-- Strict comparison against `null` (`=== null`): `undefined` is not `null`. -/
def isNull : JsVal → Bool
  | JsVal.null => true
  | _ => false

/-- A schema node as built by `extract_nested_schema`: the `type` tag string,
whether the optional `properties` field is present (`hasProps`), its entries,
and the optional `original_name`. The source stores `properties` as an
optional object; `hasProps = false` models an absent `properties` field
(the extractor never stores a non-empty map on a node that lacks it). -/
inductive SchemaNode where
  | mk : String → Bool → List (Str × SchemaNode) → Option Str → SchemaNode

abbrev NestedSchema := List (Str × SchemaNode)

def SchemaNode.ty : SchemaNode → String
  | SchemaNode.mk t _ _ _ => t

def SchemaNode.hasProps : SchemaNode → Bool
  | SchemaNode.mk _ h _ _ => h

def SchemaNode.props : SchemaNode → List (Str × SchemaNode)
  | SchemaNode.mk _ _ p _ => p

def SchemaNode.oname : SchemaNode → Option Str
  | SchemaNode.mk _ _ _ o => o

/-- One key inserted into the schema, walking its dot-separated parts
(`key.split('.')`); this is the loop body of `extract_nested_schema`.
The whole key is carried along for error messages and `original_name`. -/
def insertParts (key : Str) : List Str → NestedSchema → Except String NestedSchema
  | [], cur => Except.ok cur
  | part :: rest, cur =>
      if part = [] then Except.error ("Invalid schema key at " ++ key.asString)
      else if brackets.isSuffixOf part then
        let array_name := part.dropLast.dropLast
        let node := (assocGet cur array_name).getD (SchemaNode.mk "array" true [] none)
        if node.ty ≠ "array" ∨ node.hasProps = false then
          Except.error ("Invalid schema structure at " ++ key.asString)
        else
          match insertParts key rest node.props with
          | Except.error e => Except.error e
          | Except.ok props' =>
              Except.ok (assocSet cur array_name (SchemaNode.mk node.ty node.hasProps props' node.oname))
      else if rest = [] then
        Except.ok (assocSet cur part (SchemaNode.mk "value" false [] (some key)))
      else
        let node := (assocGet cur part).getD (SchemaNode.mk "object" true [] (some key))
        if node.ty ≠ "object" ∨ node.hasProps = false then
          Except.error ("Invalid schema structure at " ++ key.asString)
        else
          match insertParts key rest node.props with
          | Except.error e => Except.error e
          | Except.ok props' =>
              Except.ok (assocSet cur part (SchemaNode.mk node.ty node.hasProps props' node.oname))

/-- The key loop shared by both variants of `extract_nested_schema`:
the reserved root key `[]` is skipped, every other key is inserted. -/
def extract_loop : List Str → NestedSchema → Except String NestedSchema
  | [], schema => Except.ok schema
  | key :: rest, schema =>
      if key = brackets then extract_loop rest schema
      else
        match insertParts key (key.splitOn '.') schema with
        | Except.error e => Except.error e
        | Except.ok schema' => extract_loop rest schema'

/-- Runtime variant of `extract_nested_schema` (unflatten.ts). -/
def extract_nested_schema (keys : List Str) : Except String NestedSchema :=
  extract_loop keys []

/-- Code-generation variant of `extract_nested_schema`: identical key loop,
but it first demands that the reserved root key `[]` be present. -/
def extract_nested_schema_gen (keys : List Str) : Except String NestedSchema :=
  if keys.contains brackets then extract_loop keys []
  else Except.error "Root key not found"

/-- The qualified-key step of `build_object`: the source computes
`prefix ? prefix + '.' + key : key`, the empty string being falsy. -/
def qual (pfx k : Str) : Str :=
  if pfx = [] then k else pfx ++ '.' :: k

mutual

/-- Recursive helper of `unflatten_row` (`build_object` in the source): walks
the schema entries in order, building the result object. A `value` node reads
`row[full_key]`; an `object` node with a `properties` field recurses; an
`array` node with a `properties` field reads `row[full_key + "[]"]` and
yields an empty array on `null`, else a one-element array; any other node
contributes no field. -/
def build_object (row : JsObj) : NestedSchema → Str → JsObj
  | [], _ => []
  | (key, node) :: rest, pfx =>
      build_field row key node (qual pfx key) ++ build_object row rest pfx

/-- Contribution of a single schema entry to the object under construction,
at its already-qualified key. -/
def build_field (row : JsObj) (key : Str) : SchemaNode → Str → JsObj
  | SchemaNode.mk ty hp props _, full_key =>
      if ty = "value" then [(key, jsGet row full_key)]
      else if ty = "object" ∧ hp then
        [(key, JsVal.obj (build_object row props full_key))]
      else if ty = "array" ∧ hp then
        (if isNull (jsGet row (full_key ++ brackets)) then
           [(key, JsVal.arr [])]
         else
           [(key, JsVal.arr [JsVal.obj (build_object row props (full_key ++ brackets))])])
      else []

end

/-- Unflatten one flat row according to a nested schema (unflatten.ts). -/
def unflatten_row (row : JsObj) (schema : NestedSchema) : JsObj :=
  build_object row schema []

/-- JavaScript strict equality (`===`) on the values this pipeline compares as
identities. Distinct structurally-built arrays and objects are distinct
references, so composite values compare unequal. -/
def jsStrictEq : JsVal → JsVal → Bool
  | JsVal.undef, JsVal.undef => true
  | JsVal.null, JsVal.null => true
  | JsVal.bool a, JsVal.bool b => a == b
  | JsVal.num a, JsVal.num b => a == b
  | JsVal.str a, JsVal.str b => a == b
  | _, _ => false

/-- Property read `v.id` as the merge step performs it: fails (a JavaScript
`TypeError`) on `null`/`undefined`, reads the field on an object, and yields
`undefined` on any other value. -/
def idOf : JsVal → Except String JsVal
  | JsVal.undef => Except.error "TypeError"
  | JsVal.null => Except.error "TypeError"
  | JsVal.obj fields => Except.ok (jsGet fields (chars "id"))
  | _ => Except.ok JsVal.undef

/-- Left-to-right search of `target.find((item) => item.id === first.id)`,
returning the index and element of the first match. -/
def find_by_id (fid : JsVal) : List JsVal → Except String (Option (Nat × JsVal))
  | [] => Except.ok none
  | v :: rest => do
      let vid ← idOf v
      if jsStrictEq vid fid then Except.ok (some (0, v))
      else
        match ← find_by_id fid rest with
        | none => Except.ok none
        | some (i, w) => Except.ok (some (i + 1, w))

/-- Elements of an array value; `[]` otherwise (only read where the merge
step has already ensured the value is an array). -/
def arrElems : JsVal → List JsVal
  | JsVal.arr xs => xs
  | _ => []

mutual

/-- The recursive merge of unflatten.ts (`merge_objects`): walks the fields
of `source` and folds each of them into `target`. A primitive source has no
enumerable entries, so the target is returned unchanged; a non-object target
cannot take field assignments (a JavaScript `TypeError` in strict mode).
Sources that are arrays never reach this function in the pipeline — every
merged value is an unflattened row object — and are modelled as having no
entries to copy. -/
def merge_objects (target source : JsVal) : Except String JsVal :=
  match source with
  | JsVal.obj fields =>
      match target with
      | JsVal.obj t => (merge_fields t fields).map JsVal.obj
      | _ => Except.error "TypeError"
  | _ => Except.ok target

/-- Field loop of `merge_objects` over the entries of the source object. -/
def merge_fields (t : JsObj) : List (Str × JsVal) → Except String JsObj
  | [] => Except.ok t
  | (k, v) :: rest =>
      match merge_field t k v with
      | Except.error e => Except.error e
      | Except.ok t' => merge_fields t' rest

/-- One field of the merge. An array source first ensures the target field is
an array — replacing any falsy value by `[]`, failing on a truthy non-array —
then, for a non-empty source, merges into the first element whose `id`
strictly equals the first source element's `id`, or pushes all source
elements. An object source ensures the target field is non-falsy — replacing
any falsy value by an empty object, failing when `typeof` is not `'object'`
(a target array passes that check and the recursive `merge_objects` call is
what rejects it in this model) — and recurses. Any other source value is
assigned over the target field. -/
def merge_field (t : JsObj) (k : Str) : JsVal → Except String JsObj
  | JsVal.arr xs =>
      match
        (if jsFalsy (jsGet t k) then Except.ok (assocSet t k (JsVal.arr []))
         else if isArr (jsGet t k) then Except.ok t
         else Except.error ("Expected array at key " ++ k.asString) :
          Except String JsObj) with
      | Except.error e => Except.error e
      | Except.ok t' =>
          match xs with
          | [] => Except.ok t'
          | first_value :: rest_values =>
              match idOf first_value with
              | Except.error e => Except.error e
              | Except.ok fid =>
                  match find_by_id fid (arrElems (jsGet t' k)) with
                  | Except.error e => Except.error e
                  | Except.ok (some (i, existing_item)) =>
                      match merge_objects existing_item first_value with
                      | Except.error e => Except.error e
                      | Except.ok merged =>
                          Except.ok (assocSet t' k
                            (JsVal.arr ((arrElems (jsGet t' k)).set i merged)))
                  | Except.ok none =>
                      Except.ok (assocSet t' k
                        (JsVal.arr (arrElems (jsGet t' k) ++ first_value :: rest_values)))
  | JsVal.obj fields =>
      let t' := if jsFalsy (jsGet t k) then assocSet t k (JsVal.obj []) else t
      match jsGet t' k with
      | JsVal.obj tf =>
          match merge_fields tf fields with
          | Except.error e => Except.error e
          | Except.ok merged => Except.ok (assocSet t' k (JsVal.obj merged))
      | JsVal.arr _ => Except.error "TypeError"
      | _ => Except.error ("Expected object at key " ++ k.asString)
  | v => Except.ok (assocSet t k v)

end

/-- Lookup in the `root_index_map` (`Map.get`); the keys compared here are
always numbers, where SameValueZero agrees with strict equality. -/
def mapGet : List (JsVal × Nat) → JsVal → Option Nat
  | [], _ => none
  | (k, i) :: rest, key => if jsStrictEq k key then some i else mapGet rest key

/-- Step 3 of `unflatten_sql_results`: the regroup loop over the unflattened
rows. As in the source, the root index consulted on every iteration is
`rows[0]['[]']` — the first original row's root identity — and a non-number
there raises `Invalid root index`. A fresh identity appends the row and
records its output index; a recorded identity merges the row into the entity
at that index (skipping silently when the recorded index is out of range). -/
def regroup_loop (first_row : JsObj) : List JsObj → List JsObj → List (JsVal × Nat) →
    Except String (List JsObj)
  | [], result, _ => Except.ok result
  | row :: rest, result, root_index_map =>
      let root_index := jsGet first_row brackets
      if isNum root_index then
        match mapGet root_index_map root_index with
        | none =>
            regroup_loop first_row rest (result ++ [row])
              (root_index_map ++ [(root_index, result.length)])
        | some existing_index =>
            match result.get? existing_index with
            | some existing =>
                match merge_fields existing row with
                | Except.error e => Except.error e
                | Except.ok merged =>
                    regroup_loop first_row rest (result.set existing_index merged) root_index_map
            | none => regroup_loop first_row rest result root_index_map
      else Except.error "Invalid root index"

/-- Entry point `unflatten_sql_results`: empty input yields an empty result;
otherwise the schema is extracted from the first row's keys, every row is
unflattened against it, and the rows are regrouped. -/
def unflatten_sql_results (rows : List JsObj) : Except String (List JsObj) :=
  match rows with
  | [] => Except.ok []
  | first :: _ =>
      match extract_nested_schema (first.map (fun p => p.1)) with
      | Except.error e => Except.error e
      | Except.ok schema =>
          regroup_loop first (rows.map (fun r => unflatten_row r schema)) [] []

mutual

/-- Invariant of extractor-built nodes, relative to the node's fully
qualified key: a `value` node has no `properties` field and records exactly
its qualified key as `original_name`; an `object` or `array` node has a
`properties` field; children of an `array` node are qualified under
`full ++ "[]"`, children of an `object` node under `full`. -/
def node_inv : SchemaNode → Str → Bool
  | SchemaNode.mk ty hp props onm, full =>
      ((ty == "value" && !hp && onm == some full) ||
        ((ty == "object" || ty == "array") && hp)) &&
      props_inv props (if ty == "array" then full ++ brackets else full)

/-- The node invariant over a schema level, each entry qualified by the
prefix shared at that level. -/
def props_inv : NestedSchema → Str → Bool
  | [], _ => true
  | (k, n) :: rest, pfx => node_inv n (qual pfx k) && props_inv rest pfx

end

mutual

/-- Well-formedness of a node as consumers of the extractor assume it:
tagged `value` with an `original_name` and no `properties` field, or tagged
`object` or `array` with a `properties` field. -/
def wf_node : SchemaNode → Bool
  | SchemaNode.mk ty hp props onm =>
      ((ty == "value" && !hp && onm.isSome) ||
        ((ty == "object" || ty == "array") && hp)) &&
      wf_props props

/-- Well-formedness of every node of a schema. -/
def wf_props : NestedSchema → Bool
  | [] => true
  | (_, n) :: rest => wf_node n && wf_props rest

end

mutual

/-- Specification-side mirror of `build_object`: identical walk, except that
a `value` node is populated by looking up the node's recorded
`original_name` in the row instead of the qualified key reconstructed from
the nesting prefix. -/
def build_object_by_name (row : JsObj) : NestedSchema → Str → JsObj
  | [], _ => []
  | (key, node) :: rest, pfx =>
      build_field_by_name row key node (qual pfx key) ++ build_object_by_name row rest pfx

/-- Row lookup by a recorded `original_name`. -/
def onameGet (row : JsObj) : Option Str → JsVal
  | some o => jsGet row o
  | none => JsVal.undef

/-- Per-entry step of `build_object_by_name`. -/
def build_field_by_name (row : JsObj) (key : Str) : SchemaNode → Str → JsObj
  | SchemaNode.mk ty hp props onm, full_key =>
      if ty = "value" then
        [(key, onameGet row onm)]
      else if ty = "object" ∧ hp then
        [(key, JsVal.obj (build_object_by_name row props full_key))]
      else if ty = "array" ∧ hp then
        (if isNull (jsGet row (full_key ++ brackets)) then
           [(key, JsVal.arr [])]
         else
           [(key, JsVal.arr [JsVal.obj (build_object_by_name row props (full_key ++ brackets))])])
      else []

end

/-- Specification-side mirror of `unflatten_row` built on
`build_object_by_name`. -/
def unflatten_row_by_name (row : JsObj) (schema : NestedSchema) : JsObj :=
  build_object_by_name row schema []

theorem foldl_qual_of_ne (qs : List Str) : ∀ p : Str, p ≠ [] →
    List.foldl qual p qs = p ++ qs.flatMap (fun q => '.' :: q) := by
  induction qs with
  | nil => intro p _; simp
  | cons q rest ih =>
      intro p hp
      rw [List.foldl_cons]
      have hq : qual p q = p ++ '.' :: q := by simp [qual, hp]
      rw [hq, ih (p ++ '.' :: q) (by simp)]
      simp

theorem intercalate_dot (q : Str) (qs : List Str) :
    [('.' : Char)].intercalate (q :: qs) = q ++ qs.flatMap (fun r => '.' :: r) := by
  induction qs generalizing q with
  | nil => simp [List.intercalate]
  | cons r rest ih =>
      have ih2 := ih r
      rw [List.intercalate] at ih2 ⊢
      simp only [List.intersperse_cons_cons, List.flatten_cons]
      rw [ih2]
      simp

theorem splitOn_foldl_qual (key : Str) (h : ∀ q ∈ key.splitOn '.', q ≠ []) :
    List.foldl qual [] (key.splitOn '.') = key := by
  have hne : key.splitOn '.' ≠ [] := by
    rw [List.splitOn]; exact List.splitOnP_ne_nil _ _
  obtain ⟨q, qs, hqs⟩ := List.exists_cons_of_ne_nil hne
  have hq : q ≠ [] := h q (by rw [hqs]; exact List.mem_cons_self _ _)
  have h2 : List.foldl qual [] (q :: qs) = q ++ qs.flatMap (fun r => '.' :: r) := by
    rw [List.foldl_cons]
    have hq0 : qual [] q = q := by simp [qual]
    rw [hq0]
    cases qs with
    | nil => simp
    | cons r rest => exact foldl_qual_of_ne _ _ hq
  have h3 := List.intercalate_splitOn key '.'
  rw [hqs] at h3 ⊢
  rw [h2, ← intercalate_dot q qs, h3]

theorem isSuffixOf_brackets_eq {part : Str} (h : brackets.isSuffixOf part = true) :
    part = part.dropLast.dropLast ++ brackets := by
  rw [List.isSuffixOf] at h
  have h1 : brackets <:+ part := List.reverse_prefix.mp (List.isPrefixOf_iff_prefix.mp h)
  obtain ⟨t, ht⟩ := h1
  have hd : part.dropLast.dropLast = t := by
    rw [← ht]
    show (t ++ ['[', ']']).dropLast.dropLast = t
    have hsplit : t ++ ['[', ']'] = (t ++ ['[']) ++ [']'] := by simp
    rw [hsplit, List.dropLast_concat, List.dropLast_concat]
  rw [hd, ht]

theorem qual_append_brackets (p t : Str) :
    qual p (t ++ brackets) = qual p t ++ brackets := by
  by_cases hp : p = [] <;> simp [qual, hp]

theorem assocGet_props_inv {cur : NestedSchema} {p : Str} :
    ∀ {k : Str} {n : SchemaNode}, props_inv cur p = true →
      assocGet cur k = some n → node_inv n (qual p k) = true := by
  induction cur with
  | nil => intro k n _ hget; simp [assocGet] at hget
  | cons e rest ih =>
      intro k n hinv hget
      obtain ⟨k', n'⟩ := e
      rw [props_inv, Bool.and_eq_true] at hinv
      by_cases hk : (k' == k) = true
      · have : assocGet ((k', n') :: rest) k = some n' := by
          simp [assocGet, List.find?, hk]
        rw [this] at hget
        cases hget
        have : k' = k := by exact eq_of_beq hk
        rw [← this]
        exact hinv.1
      · have : assocGet ((k', n') :: rest) k = assocGet rest k := by
          simp [assocGet, List.find?, hk]
        rw [this] at hget
        exact ih hinv.2 hget

theorem assocSet_props_inv {p : Str} : ∀ {cur : NestedSchema} {k : Str} {n : SchemaNode},
    props_inv cur p = true → node_inv n (qual p k) = true →
    props_inv (assocSet cur k n) p = true := by
  intro cur
  induction cur with
  | nil => intro k n _ hn; simp [assocSet, props_inv, hn]
  | cons e rest ih =>
      intro k n hinv hn
      obtain ⟨k', n'⟩ := e
      rw [props_inv, Bool.and_eq_true] at hinv
      by_cases hk : (k' == k) = true
      · have hkk : k' = k := eq_of_beq hk
        rw [assocSet, if_pos hk, props_inv, Bool.and_eq_true]
        exact ⟨hn, hinv.2⟩
      · rw [assocSet, if_neg hk, props_inv, Bool.and_eq_true]
        exact ⟨hinv.1, ih hinv.2 hn⟩

theorem insertParts_ok_ne {key : Str} :
    ∀ {parts : List Str} {cur cur' : NestedSchema},
      insertParts key parts cur = Except.ok cur' → ∀ q ∈ parts, q ≠ [] := by
  intro parts
  induction parts with
  | nil => intro cur cur' _ q hq; simp at hq
  | cons part rest ih =>
      intro cur cur' h q hq
      simp only [insertParts] at h
      split at h
      · exact absurd h (by simp)
      · rcases List.mem_cons.mp hq with rfl | hq'
        · assumption
        · split at h
          · split at h
            · exact absurd h (by simp)
            · split at h
              · exact absurd h (by simp)
              · exact ih (by assumption) q hq'
          · split at h
            · -- value case: rest = []
              simp_all
            · split at h
              · exact absurd h (by simp)
              · split at h
                · exact absurd h (by simp)
                · exact ih (by assumption) q hq'

theorem node_inv_child_arr {n : SchemaNode} {full : Str} (h : node_inv n full = true)
    (harr : n.ty = "array") : props_inv n.props (full ++ brackets) = true := by
  obtain ⟨ty, hp, props, onm⟩ := n
  simp only [SchemaNode.ty] at harr
  subst harr
  rw [node_inv, Bool.and_eq_true] at h
  simpa [SchemaNode.props] using h.2

theorem node_inv_child_obj {n : SchemaNode} {full : Str} (h : node_inv n full = true)
    (hobj : n.ty = "object") : props_inv n.props full = true := by
  obtain ⟨ty, hp, props, onm⟩ := n
  simp only [SchemaNode.ty] at hobj
  subst hobj
  rw [node_inv, Bool.and_eq_true] at h
  simpa [SchemaNode.props] using h.2

theorem insertParts_props_inv {key : Str} :
    ∀ {parts : List Str} {cur cur' : NestedSchema} {p : Str},
      insertParts key parts cur = Except.ok cur' →
      props_inv cur p = true →
      List.foldl qual p parts = key →
      props_inv cur' p = true := by
  intro parts
  induction parts with
  | nil =>
      intro cur cur' p h hinv _
      simp only [insertParts] at h
      cases h
      exact hinv
  | cons part rest ih =>
      intro cur cur' p h hinv hfold
      rw [List.foldl_cons] at hfold
      simp only [insertParts] at h
      split at h
      · exact absurd h (by simp)
      next hpart =>
        split at h
        next hsuf =>
          split at h
          next => exact absurd h (by simp)
          next hty =>
            split at h
            next => exact absurd h (by simp)
            next props' heq =>
              cases h
              push_neg at hty
              have hty1 := hty.1
              have hty2 : ((assocGet cur part.dropLast.dropLast).getD
                  (SchemaNode.mk "array" true [] none)).hasProps = true :=
                Bool.not_eq_false _ |>.mp hty.2
              have hpartEq := isSuffixOf_brackets_eq hsuf
              have hchild : props_inv ((assocGet cur part.dropLast.dropLast).getD
                  (SchemaNode.mk "array" true [] none)).props
                  (qual p part.dropLast.dropLast ++ brackets) = true := by
                cases hget : assocGet cur part.dropLast.dropLast with
                | none => simp [hget, SchemaNode.props, props_inv]
                | some n =>
                    have hn := assocGet_props_inv hinv hget
                    have harr : n.ty = "array" := by
                      rw [hget] at hty1
                      simpa using hty1
                    simpa using node_inv_child_arr hn harr
              have hfold2 : List.foldl qual (qual p part.dropLast.dropLast ++ brackets) rest =
                  key := by
                rw [← qual_append_brackets, ← hpartEq]
                exact hfold
              have hrec := ih heq hchild hfold2
              apply assocSet_props_inv hinv
              rw [node_inv, Bool.and_eq_true]
              constructor
              · rw [hty1, hty2]; rfl
              · rw [hty1]
                simpa using hrec
        next hsuf =>
          split at h
          next hrest =>
            cases h
            apply assocSet_props_inv hinv
            rw [node_inv, Bool.and_eq_true]
            constructor
            · subst hrest
              rw [List.foldl_nil] at hfold
              simp [hfold]
            · rfl
          next hrest =>
            split at h
            next => exact absurd h (by simp)
            next hty =>
              split at h
              next => exact absurd h (by simp)
              next props' heq =>
                cases h
                push_neg at hty
                have hty1 := hty.1
                have hty2 : ((assocGet cur part).getD
                    (SchemaNode.mk "object" true [] (some key))).hasProps = true :=
                  Bool.not_eq_false _ |>.mp hty.2
                have hchild : props_inv ((assocGet cur part).getD
                    (SchemaNode.mk "object" true [] (some key))).props
                    (qual p part) = true := by
                  cases hget : assocGet cur part with
                  | none => simp [hget, SchemaNode.props, props_inv]
                  | some n =>
                      have hn := assocGet_props_inv hinv hget
                      have hobj : n.ty = "object" := by
                        rw [hget] at hty1
                        simpa using hty1
                      simpa using node_inv_child_obj hn hobj
                have hrec := ih heq hchild hfold
                apply assocSet_props_inv hinv
                rw [node_inv, Bool.and_eq_true]
                constructor
                · rw [hty1, hty2]; rfl
                · rw [hty1]
                  simpa using hrec

theorem extract_loop_props_inv :
    ∀ {keys : List Str} {schema schema' : NestedSchema},
      extract_loop keys schema = Except.ok schema' →
      props_inv schema [] = true →
      props_inv schema' [] = true := by
  intro keys
  induction keys with
  | nil => intro s s' h hs; simp only [extract_loop] at h; cases h; exact hs
  | cons key rest ih =>
      intro s s' h hs
      simp only [extract_loop] at h
      split at h
      · exact ih h hs
      · split at h
        · exact absurd h (by simp)
        next schema2 heq =>
            have hne := insertParts_ok_ne heq
            have hfold := splitOn_foldl_qual key hne
            exact ih h (insertParts_props_inv heq hs hfold)

theorem extract_props_inv {keys : List Str} {schema : NestedSchema}
    (h : extract_nested_schema keys = Except.ok schema) : props_inv schema [] = true :=
  extract_loop_props_inv h rfl

theorem props_inv_wf : ∀ (props : NestedSchema) (pfx : Str),
    props_inv props pfx = true → wf_props props = true := by
  refine props_inv.induct (fun n full => node_inv n full = true → wf_node n = true)
    (fun props pfx => props_inv props pfx = true → wf_props props = true) ?_ ?_ ?_
  · intro ty hp props a full ih h
    rw [node_inv, Bool.and_eq_true] at h
    rw [wf_node, Bool.and_eq_true]
    refine ⟨?_, ih h.2⟩
    have h1 := h.1
    rw [Bool.or_eq_true] at h1
    rw [Bool.or_eq_true]
    rcases h1 with h1 | h2
    · left
      simp only [Bool.and_eq_true] at h1 ⊢
      obtain ⟨⟨hv, hhp⟩, ha⟩ := h1
      refine ⟨⟨hv, hhp⟩, ?_⟩
      have : a = some full := eq_of_beq ha
      simp [this]
    · right
      exact h2
  · intro _ _; rfl
  · intro k n rest pfx ih1 ih2 h
    rw [props_inv, Bool.and_eq_true] at h
    rw [wf_props, Bool.and_eq_true]
    exact ⟨ih1 h.1, ih2 h.2⟩

theorem build_object_by_name_eq (row : JsObj) : ∀ (schema : NestedSchema) (pfx : Str),
    props_inv schema pfx = true →
    build_object row schema pfx = build_object_by_name row schema pfx := by
  refine build_object.induct row
    (fun schema pfx => props_inv schema pfx = true →
      build_object row schema pfx = build_object_by_name row schema pfx)
    (fun key node full => node_inv node full = true →
      build_field row key node full = build_field_by_name row key node full)
    ?_ ?_ ?_ ?_ ?_ ?_ ?_
  · intro key hp props a full h
    rw [node_inv, Bool.and_eq_true] at h
    have h1 : a = some full := by
      have hh := h.1
      rw [Bool.or_eq_true] at hh
      rcases hh with h1 | h2
      · simp only [Bool.and_eq_true] at h1
        exact eq_of_beq h1.2
      · simp at h2
    rw [build_field, build_field_by_name]
    simp [h1, onameGet]
  · intro key ty hp props a full hnv hoh ih h
    obtain ⟨hobj, hhp⟩ := hoh
    subst hobj
    subst hhp
    rw [node_inv, Bool.and_eq_true] at h
    have hchild : props_inv props full = true := by
      simpa using h.2
    rw [build_field, build_field_by_name]
    simp [if_neg hnv, ih hchild]
  · intro key ty hp props a full hnv hno harr hnull h
    obtain ⟨harr2, hhp⟩ := harr
    subst harr2
    subst hhp
    rw [build_field, build_field_by_name]
    simp [if_neg hnv, if_neg hno, hnull]
  · intro key ty hp props a full hnv hno harr hnull ih h
    obtain ⟨harr2, hhp⟩ := harr
    subst harr2
    subst hhp
    rw [node_inv, Bool.and_eq_true] at h
    have hchild : props_inv props (full ++ brackets) = true := by
      simpa using h.2
    rw [build_field, build_field_by_name]
    simp [if_neg hnv, if_neg hno, hnull, ih hchild]
  · intro key ty hp props a full hnv hno hna h
    rw [build_field, build_field_by_name]
    simp [if_neg hnv, if_neg hno, if_neg hna]
  · intro _ _; rfl
  · intro key node rest pfx ih1 ih2 h
    rw [props_inv, Bool.and_eq_true] at h
    rw [build_object, build_object_by_name, ih1 h.1, ih2 h.2]

theorem unflatten_row_by_name_eq {keys : List Str} {schema : NestedSchema}
    (h : extract_nested_schema keys = Except.ok schema) (row : JsObj) :
    unflatten_row row schema = unflatten_row_by_name row schema := by
  rw [unflatten_row, unflatten_row_by_name]
  exact build_object_by_name_eq row schema [] (extract_props_inv h)

/-- C1: the claim says `unflatten_sql_results` groups each row by that row's
own `[]` value, so scenario A must yield the two entities for identities 1
and 2. The code instead reads `rows[0]['[]']` inside the per-row loop, so
every row is grouped under the first row's identity and the second row is
merged over the first, yielding the single entity with id `u2`, name `Bob`. -/
theorem c1_regroups_every_row_by_first_rows_identity :
    unflatten_sql_results
      [[(brackets, JsVal.num 1), (chars "id", JsVal.str (chars "u1")),
        (chars "name", JsVal.str (chars "Ann"))],
       [(brackets, JsVal.num 2), (chars "id", JsVal.str (chars "u2")),
        (chars "name", JsVal.str (chars "Bob"))]] =
      Except.ok [[(chars "id", JsVal.str (chars "u2")),
        (chars "name", JsVal.str (chars "Bob"))]] := by
  rfl

/-- C2 counterexample: the claim demands failure for the key list
`["a.b", "a"]` as well, but extraction succeeds there — the later scalar
key silently overwrites the nested object node built for `a`. -/
theorem c2_counterexample :
    extract_nested_schema [chars "a.b", chars "a"] =
      Except.ok [(chars "a", SchemaNode.mk "value" false [] (some (chars "a")))] := by
  rfl

/-- C2 (amended): conflict detection is order dependent. A key that walks
through a position already recorded as a scalar `value` node fails with the
invalid-structure error — so when the scalar key precedes the nested key, as
in scenario E's `["a", "a.b"]`, extraction fails; but a key that ends at a
position overwrites whatever node is recorded there unconditionally, so when
the nested key comes first (`["a.b", "a"]`) no error is raised and the
scalar value node silently replaces the nested object node. -/
theorem c2_conflict_detection_is_order_dependent :
    (∀ (key part next : Str) (rest : List Str) (cur : NestedSchema) (n : SchemaNode),
      part ≠ [] → brackets.isSuffixOf part = false →
      assocGet cur part = some n → n.ty = "value" →
      insertParts key (part :: next :: rest) cur =
        Except.error ("Invalid schema structure at " ++ key.asString)) ∧
    (∀ (key part : Str) (cur : NestedSchema),
      part ≠ [] → brackets.isSuffixOf part = false →
      insertParts key [part] cur =
        Except.ok (assocSet cur part (SchemaNode.mk "value" false [] (some key)))) ∧
    extract_nested_schema [chars "a", chars "a.b"] =
      Except.error "Invalid schema structure at a.b" ∧
    extract_nested_schema [chars "a.b", chars "a"] =
      Except.ok [(chars "a", SchemaNode.mk "value" false [] (some (chars "a")))] := by
  refine ⟨?_, ?_, rfl, rfl⟩
  · intro key part next rest cur n hpart hsuf hget hv
    simp [insertParts, hpart, hsuf, hget, hv]
  · intro key part cur hpart hsuf
    simp [insertParts, hpart, hsuf]

/-- Witness for C2 (amended): walking through the scalar node recorded for
`a` fails, and a final segment overwrites. -/
theorem c2_conflict_detection_is_order_dependent_witness :
    insertParts (chars "a.b") [chars "a", chars "b"]
        [(chars "a", SchemaNode.mk "value" false [] (some (chars "a")))] =
      Except.error ("Invalid schema structure at " ++ (chars "a.b").asString) :=
  c2_conflict_detection_is_order_dependent.1 (chars "a.b") (chars "a") (chars "b") []
    [(chars "a", SchemaNode.mk "value" false [] (some (chars "a")))]
    (SchemaNode.mk "value" false [] (some (chars "a")))
    (by decide) (by rfl) (by rfl) (by rfl)

/-- C5: the claim says the regrouper fails whenever some row lacks the `[]`
key, every row being checked against its own value. In the code the check
reads `rows[0]['[]']` on every iteration, so a later row with no `[]` key
passes silently: here the second row lacks `[]`, yet the call succeeds. -/
theorem c5_later_row_missing_root_identity_accepted :
    unflatten_sql_results
      [[(brackets, JsVal.num 1), (chars "id", JsVal.str (chars "u1"))],
       [(chars "id", JsVal.str (chars "u2"))]] =
      Except.ok [[(chars "id", JsVal.str (chars "u2"))]] := by
  rfl

/-- C8: extraction is a deterministic function of the key list — two
extractions from the same keys yield structurally identical schemas (in this
deep embedding, equal schemas: same node kinds, field names and
original_name values at every position). -/
theorem c8_extraction_deterministic (keys : List Str) (s₁ s₂ : NestedSchema)
    (h₁ : extract_nested_schema keys = Except.ok s₁)
    (h₂ : extract_nested_schema keys = Except.ok s₂) : s₁ = s₂ :=
  Except.ok.inj (h₁.symm.trans h₂)

/-- Witness for C8 at the concrete key list `["[]", "id"]`. -/
theorem c8_extraction_deterministic_witness :
    ([(chars "id", SchemaNode.mk "value" false [] (some (chars "id")))] : NestedSchema) =
      [(chars "id", SchemaNode.mk "value" false [] (some (chars "id")))] :=
  c8_extraction_deterministic [chars "[]", chars "id"] _ _ (by rfl) (by rfl)

/-- C9: every schema returned by `extract_nested_schema` is well-formed:
each node is a `value` node carrying an `original_name` and no `properties`
field, or an `object`/`array` node carrying a `properties` field — exactly
the condition making the invalid-structure branches of consumers of the
extractor's output unreachable. -/
theorem c9_extracted_schema_well_formed (keys : List Str) (schema : NestedSchema)
    (h : extract_nested_schema keys = Except.ok schema) : wf_props schema = true :=
  props_inv_wf schema [] (extract_props_inv h)

/-- Witness for C9 at the concrete key list `["[]", "id", "orders[].id"]`. -/
theorem c9_extracted_schema_well_formed_witness :
    wf_props [(chars "id", SchemaNode.mk "value" false [] (some (chars "id"))),
      (chars "orders", SchemaNode.mk "array" true
        [(chars "id", SchemaNode.mk "value" false [] (some (chars "orders[].id")))]
        none)] = true :=
  c9_extracted_schema_well_formed [chars "[]", chars "id", chars "orders[].id"] _ (by rfl)

/-- C10: the code-generation variant of `extract_nested_schema` fails with
`Root key not found` on every key list that does not contain the literal
key `[]`, before building any schema node. -/
theorem c10_gen_variant_requires_root_key (keys : List Str)
    (h : keys.contains brackets = false) :
    extract_nested_schema_gen keys = Except.error "Root key not found" := by
  rw [extract_nested_schema_gen, if_neg]
  simpa using h

/-- Witness for C10 at the concrete key list `["id"]`. -/
theorem c10_gen_variant_requires_root_key_witness :
    extract_nested_schema_gen [chars "id"] = Except.error "Root key not found" :=
  c10_gen_variant_requires_root_key [chars "id"] (by rfl)

/-- C7: for every schema produced by the extractor, unflattening a row reads
each `value` node from exactly the node's recorded `original_name` — i.e.
the qualified key the unflattener reconstructs always equals the
`original_name` the extractor recorded, so `unflatten_row` coincides with
its specification-side mirror that looks leaves up by `original_name`. -/
theorem c7_value_nodes_read_original_name (keys : List Str) (schema : NestedSchema)
    (row : JsObj) (h : extract_nested_schema keys = Except.ok schema) :
    unflatten_row row schema = unflatten_row_by_name row schema :=
  unflatten_row_by_name_eq h row

/-- Witness for C7 at the key list `["[]", "id", "orders[].total"]` and a
concrete row. -/
theorem c7_value_nodes_read_original_name_witness :
    unflatten_row [(chars "id", JsVal.str (chars "u1")),
        (chars "orders[]", JsVal.num 10), (chars "orders[].total", JsVal.num 5)]
      [(chars "id", SchemaNode.mk "value" false [] (some (chars "id"))),
        (chars "orders", SchemaNode.mk "array" true
          [(chars "total", SchemaNode.mk "value" false [] (some (chars "orders[].total")))]
          none)] =
      unflatten_row_by_name [(chars "id", JsVal.str (chars "u1")),
        (chars "orders[]", JsVal.num 10), (chars "orders[].total", JsVal.num 5)]
      [(chars "id", SchemaNode.mk "value" false [] (some (chars "id"))),
        (chars "orders", SchemaNode.mk "array" true
          [(chars "total", SchemaNode.mk "value" false [] (some (chars "orders[].total")))]
          none)] :=
  c7_value_nodes_read_original_name [chars "[]", chars "id", chars "orders[].total"] _ _ (by rfl)

/-- C3 counterexample: the claim says that when neither side has an `id`
field the source element is appended verbatim. But `item.id === first.id`
compares `undefined === undefined`, which holds, so the id-less source
element `[b:2]` is merged into the unrelated id-less target element `[a:1]`
instead of being appended as a second entry. -/
theorem c3_counterexample :
    merge_fields [(chars "xs", JsVal.arr [JsVal.obj [(chars "a", JsVal.num 1)]])]
      [(chars "xs", JsVal.arr [JsVal.obj [(chars "b", JsVal.num 2)]])] =
      Except.ok [(chars "xs",
        JsVal.arr [JsVal.obj [(chars "a", JsVal.num 1), (chars "b", JsVal.num 2)]])] := by
  rfl

/-- C3 (amended): the merge step merges the source element into the first
target element whose `id` strictly equals the source element's `id` — a
missing `id` reading as `undefined`, and `undefined === undefined` holding,
so an id-less source element merges into the first id-less target element —
and appends the source element verbatim only when no element matches. -/
theorem c3_amended_merge_by_strict_id_equality (t : JsObj) (k : Str) (ts : List JsVal)
    (e fid : JsVal) (hget : jsGet t k = JsVal.arr ts) (hid : idOf e = Except.ok fid) :
    (find_by_id fid ts = Except.ok none →
      merge_fields t [(k, JsVal.arr [e])] =
        Except.ok (assocSet t k (JsVal.arr (ts ++ [e])))) ∧
    (∀ i item, find_by_id fid ts = Except.ok (some (i, item)) →
      merge_fields t [(k, JsVal.arr [e])] =
        (merge_objects item e).map (fun m => assocSet t k (JsVal.arr (ts.set i m)))) := by
  constructor
  · intro hfind
    simp only [merge_fields, merge_field, hget]
    simp [jsFalsy, isArr, arrElems, hget, hid, hfind]
  · intro i item hfind
    simp only [merge_fields, merge_field, hget]
    cases hm : merge_objects item e <;>
      simp [Except.map, jsFalsy, isArr, arrElems, hget, hid, hfind, hm]

/-- Witness for C3 (amended): an element with a fresh id is appended. -/
theorem c3_amended_merge_by_strict_id_equality_witness :
    merge_fields [(chars "xs", JsVal.arr [JsVal.obj [(chars "id", JsVal.num 1)]])]
      [(chars "xs", JsVal.arr [JsVal.obj [(chars "id", JsVal.num 2)]])] =
      Except.ok (assocSet [(chars "xs", JsVal.arr [JsVal.obj [(chars "id", JsVal.num 1)]])]
        (chars "xs")
        (JsVal.arr [JsVal.obj [(chars "id", JsVal.num 1)],
          JsVal.obj [(chars "id", JsVal.num 2)]])) :=
  (c3_amended_merge_by_strict_id_equality _ (chars "xs")
    [JsVal.obj [(chars "id", JsVal.num 1)]] (JsVal.obj [(chars "id", JsVal.num 2)])
    (JsVal.num 2) (by rfl) (by rfl)).1 (by rfl)

/-- C4 counterexample: the claim says a sequence source over the falsy
scalar target `0` must fail with the type-conflict error; the code treats
every falsy target as absent (`!target[key]`), replaces it by `[]` and
succeeds. -/
theorem c4_counterexample :
    merge_fields [(chars "x", JsVal.num 0)]
      [(chars "x", JsVal.arr [JsVal.obj [(chars "id", JsVal.num 1)]])] =
      Except.ok [(chars "x", JsVal.arr [JsVal.obj [(chars "id", JsVal.num 1)]])] := by
  rfl

/-- C4 (amended): the type-conflict errors are raised only over truthy
targets: an array source over a truthy non-array target fails with
`Expected array at key`, and an object source over a truthy target that is
neither object nor array fails with `Expected object at key`; falsy targets
(`0`, `false`, the empty string, `null`, `undefined`) are treated as absent
and silently replaced. -/
theorem merge_fields_single (t : JsObj) (k : Str) (v : JsVal) :
    merge_fields t [(k, v)] = merge_field t k v := by
  simp only [merge_fields]
  cases merge_field t k v <;> simp [merge_fields]

theorem c4_amended_type_conflict_only_for_truthy_targets (t : JsObj) (k : Str)
    (xs : List JsVal) (fs : JsObj) (htruthy : jsFalsy (jsGet t k) = false) :
    (isArr (jsGet t k) = false →
      merge_fields t [(k, JsVal.arr xs)] =
        Except.error ("Expected array at key " ++ k.asString)) ∧
    (isObj (jsGet t k) = false → isArr (jsGet t k) = false →
      merge_fields t [(k, JsVal.obj fs)] =
        Except.error ("Expected object at key " ++ k.asString)) := by
  constructor
  · intro harr
    rw [merge_fields_single, merge_field.eq_1, htruthy, harr]
    simp
  · intro hobj harr
    rw [merge_fields_single, merge_field.eq_2]
    cases hv : jsGet t k <;> simp_all [isObj, isArr, jsFalsy]

/-- Witness for C4 (amended) at the truthy scalar target `"y"`. -/
theorem c4_amended_type_conflict_only_for_truthy_targets_witness :
    merge_fields [(chars "x", JsVal.str (chars "y"))]
      [(chars "x", JsVal.arr [])] =
      Except.error ("Expected array at key " ++ (chars "x").asString) :=
  (c4_amended_type_conflict_only_for_truthy_targets
    [(chars "x", JsVal.str (chars "y"))] (chars "x") [] [] (by rfl)).1 (by rfl)

/-- C6: an `array` node at qualified key `full` inspects
`row[full + "[]"]`: `null` yields the empty array, anything else yields the
one-element array of the recursively unflattened element; and on the claim's
concrete scenario D — keys `["[]", "id", "orders[].id"]` with the row
carrying `orders[]: null` — the pipeline outputs the single entity with
`id: "u1"` and `orders: []`. -/
theorem c6_array_null_yields_empty_array (row : JsObj) (k : Str)
    (props rest : NestedSchema) (onm : Option Str) (pfx : Str) :
    (jsGet row (qual pfx k ++ brackets) = JsVal.null →
      build_object row ((k, SchemaNode.mk "array" true props onm) :: rest) pfx =
        (k, JsVal.arr []) :: build_object row rest pfx) ∧
    (isNull (jsGet row (qual pfx k ++ brackets)) = false →
      build_object row ((k, SchemaNode.mk "array" true props onm) :: rest) pfx =
        (k, JsVal.arr [JsVal.obj (build_object row props (qual pfx k ++ brackets))]) ::
          build_object row rest pfx) ∧
    ((do
        let s ← extract_nested_schema [chars "[]", chars "id", chars "orders[].id"]
        regroup_loop [(brackets, JsVal.num 1), (chars "id", JsVal.str (chars "u1")),
            (chars "orders[]", JsVal.null)]
          [unflatten_row [(brackets, JsVal.num 1), (chars "id", JsVal.str (chars "u1")),
            (chars "orders[]", JsVal.null)] s] [] []) =
      Except.ok [[(chars "id", JsVal.str (chars "u1")), (chars "orders", JsVal.arr [])]]) := by
  refine ⟨?_, ?_, by rfl⟩
  · intro hnull
    rw [build_object, build_field]
    simp [hnull, isNull]
  · intro hnn
    rw [build_object, build_field]
    simp [hnn]

/-- Witness for C6 at a concrete row with a `null` array marker. -/
theorem c6_array_null_yields_empty_array_witness :
    build_object [(chars "orders[]", JsVal.null)]
        [(chars "orders", SchemaNode.mk "array" true [] none)] [] =
      (chars "orders", JsVal.arr []) :: build_object [(chars "orders[]", JsVal.null)] [] [] :=
  (c6_array_null_yields_empty_array [(chars "orders[]", JsVal.null)] (chars "orders")
    [] [] none []).1 (by rfl)
